import Mathlib

/-!
Verification of the `peek` file pager (`src/bin/fp.rs`): a shallow embedding of
the syntax highlighter (`highlight_line`, `is_keyword`, `is_type`) and of the
viewport controller's state transitions (`run_app`: per-frame scroll clamp,
status line, key handling), together with theorems settling the specification's
claims about them.
-/

namespace Peek

/-! ## Colors and styles

The Dracula palette constants from the source, and a value model of the
`ratatui` `Style` as the triple (foreground, bold, italic) — the only style
components the program sets.  `Style::default()` has no foreground color and
no modifiers. -/

def DRACULA_BG : Nat × Nat × Nat := (40, 42, 54)

def DRACULA_FG : Nat × Nat × Nat := (248, 248, 242)

def DRACULA_COMMENT : Nat × Nat × Nat := (98, 114, 164)

def DRACULA_PURPLE : Nat × Nat × Nat := (189, 147, 249)

def DRACULA_CYAN : Nat × Nat × Nat := (139, 233, 253)

def DRACULA_GREEN : Nat × Nat × Nat := (80, 250, 123)

def DRACULA_ORANGE : Nat × Nat × Nat := (255, 184, 108)

def DRACULA_RED : Nat × Nat × Nat := (255, 85, 85)

def DRACULA_PINK : Nat × Nat × Nat := (255, 121, 198)

def DRACULA_YELLOW : Nat × Nat × Nat := (241, 250, 140)

def DRACULA_CURRENT_LINE : Nat × Nat × Nat := (68, 71, 90)

structure RStyle where
  fg : Option (Nat × Nat × Nat)
  bold : Bool
  italic : Bool
deriving DecidableEq

/-- `Style::default()`: no foreground, no modifiers. -/
def styleDefault : RStyle := ⟨none, false, false⟩

/-- `Style::fg`: replace the foreground color, keep modifiers. -/
def styleFg (s : RStyle) (c : Nat × Nat × Nat) : RStyle := ⟨some c, s.bold, s.italic⟩

/-- `Style::bold`: add the bold modifier. -/
def styleBold (s : RStyle) : RStyle := ⟨s.fg, true, s.italic⟩

/-- `Style::italic`: add the italic modifier. -/
def styleItalic (s : RStyle) : RStyle := ⟨s.fg, s.bold, true⟩

/-- A `ratatui` `Span`: a piece of text with a style. -/
structure Span where
  text : String
  style : RStyle
deriving DecidableEq

/-- `Span::raw`: text with the default style (used for whitespace). -/
def Span.raw (s : String) : Span := ⟨s, styleDefault⟩

/-- Concatenation of the texts of a span sequence, in order. -/
def spansText : List Span → String
  | [] => ""
  | s :: ss => s.text ++ spansText ss

/-- Style of the comment span: `Style::default().fg(DRACULA_COMMENT).italic()`. -/
def commentStyle : RStyle := styleItalic (styleFg styleDefault DRACULA_COMMENT)

/-- Style of punctuation spans (and of unclassified words):
`Style::default().fg(DRACULA_FG)`. -/
def fgStyle : RStyle := styleFg styleDefault DRACULA_FG

/-! ## Rust character classification

Models of the Unicode-aware `char` predicates the scanner uses
(`is_alphabetic`, `is_alphanumeric`, `is_whitespace`, `is_ascii_digit`).
They are faithful on the Basic Latin (ASCII) and Latin-1 Supplement blocks
(U+0000–U+00FF), which cover every character appearing in this development;
code points above U+00FF are classified `false`, since carrying the full
Unicode tables is out of scope and no theorem below depends on them. -/

/-- Rust `char::is_alphabetic` on U+0000–U+00FF: ASCII letters plus the
Latin-1 letters ª µ º À–Ö Ø–ö ø–ÿ. -/
def rustIsAlphabetic (c : Char) : Bool :=
  let n := c.toNat
  (0x41 ≤ n && n ≤ 0x5A) || (0x61 ≤ n && n ≤ 0x7A) ||
  n == 0xAA || n == 0xB5 || n == 0xBA ||
  (0xC0 ≤ n && n ≤ 0xD6) || (0xD8 ≤ n && n ≤ 0xF6) || (0xF8 ≤ n && n ≤ 0xFF)

/-- Rust `char::is_numeric` on U+0000–U+00FF: ASCII digits plus the Latin-1
numeric characters ² ³ ¹ ¼ ½ ¾. -/
def rustIsNumericChar (c : Char) : Bool :=
  let n := c.toNat
  (0x30 ≤ n && n ≤ 0x39) ||
  n == 0xB2 || n == 0xB3 || n == 0xB9 || n == 0xBC || n == 0xBD || n == 0xBE

/-- Rust `char::is_alphanumeric` = alphabetic or numeric. -/
def rustIsAlphanumeric (c : Char) : Bool := rustIsAlphabetic c || rustIsNumericChar c

/-- Rust `char::is_whitespace` on U+0000–U+00FF: U+0009–U+000D, space,
U+0085 (NEL) and U+00A0 (no-break space). -/
def rustIsWhitespace (c : Char) : Bool :=
  let n := c.toNat
  (0x09 ≤ n && n ≤ 0x0D) || n == 0x20 || n == 0x85 || n == 0xA0

/-- Word-continuation characters of the scanner:
`chars[i].is_alphanumeric() || chars[i] == '_'`. -/
def wordChar (c : Char) : Bool := rustIsAlphanumeric c || c == '_'

/-! ## Success of `str::parse::<f64>`

The word classifier only asks whether `word.parse::<f64>()` is `Ok`; per the
documented grammar of `f64::from_str`, parsing succeeds exactly on
`Sign? ( 'inf' | 'infinity' | 'nan' | Number )` (the special words
case-insensitively) with
`Number ::= (Digit+ | Digit+ '.' Digit* | Digit* '.' Digit+) Exp?` and
`Exp ::= ('e' | 'E') Sign? Digit+`.  Out-of-range magnitudes round to
infinity or zero and still succeed, so success is exactly this grammar. -/

def asciiLower (c : Char) : Char :=
  if 'A' ≤ c && c ≤ 'Z' then Char.ofNat (c.toNat + 32) else c

def stripSign : List Char → List Char
  | [] => []
  | c :: t => if c == '+' || c == '-' then t else c :: t

/-- Split at the first `e`/`E`, if any. -/
def splitAtExpChar : List Char → Option (List Char × List Char)
  | [] => none
  | c :: t =>
    if c == 'e' || c == 'E' then some ([], t)
    else match splitAtExpChar t with
      | none => none
      | some (a, b) => some (c :: a, b)

/-- `Digit+ | Digit+ '.' Digit* | Digit* '.' Digit+`. -/
def isMantissa (cs : List Char) : Bool :=
  let ds := cs.takeWhile Char.isDigit
  match cs.dropWhile Char.isDigit with
  | [] => !ds.isEmpty
  | '.' :: frac => frac.all Char.isDigit && (!ds.isEmpty || !frac.isEmpty)
  | _ => false

/-- `Sign? Digit+` (the exponent part). -/
def isExpDigits (cs : List Char) : Bool :=
  let body := stripSign cs
  !body.isEmpty && body.all Char.isDigit

/-- Whether `w.parse::<f64>()` is `Ok` in Rust. -/
def rustParsesF64 (w : String) : Bool :=
  let body := stripSign w.data
  let lower := body.map asciiLower
  lower == "inf".data || lower == "infinity".data || lower == "nan".data ||
  (match splitAtExpChar body with
   | none => isMantissa body
   | some (m, e) => isMantissa m && isExpDigits e)

/-! ## Keyword and type sets (`is_keyword`, `is_type`) -/

/-- The `matches!` list of `fn is_keyword`. -/
def is_keyword (w : String) : Bool :=
  w == "fn" || w == "let" || w == "mut" || w == "const" || w == "struct" ||
  w == "enum" || w == "impl" || w == "trait" || w == "pub" || w == "use" ||
  w == "if" || w == "else" || w == "match" || w == "for" || w == "while" ||
  w == "loop" || w == "return" || w == "break" || w == "continue" ||
  w == "true" || w == "false" || w == "None" || w == "Some" || w == "Ok" ||
  w == "Err"

/-- The `matches!` list of `fn is_type` (the source lists `Result` and
`Option` twice; the duplicates are kept). -/
def is_type (w : String) : Bool :=
  w == "String" || w == "Vec" || w == "Option" || w == "Result" ||
  w == "i32" || w == "u64" || w == "f64" || w == "bool" || w == "char" ||
  w == "usize" || w == "PathBuf" || w == "Result" || w == "Option"

/-- Style of a consumed word, as the source computes it: start from
`Style::default().fg(DRACULA_FG)`, then three independent `if`s each
overwrite the style when their predicate matches. -/
def wordStyle (w : String) : RStyle :=
  let s := styleFg styleDefault DRACULA_FG
  let s := if is_keyword w then styleBold (styleFg s DRACULA_PURPLE) else s
  let s := if is_type w then styleFg s DRACULA_CYAN else s
  if rustParsesF64 w then styleFg s DRACULA_ORANGE else s

/-- Word style as the spec words it: a first-match precedence chain
keyword → type → number → default. -/
def specWordStyle (w : String) : RStyle :=
  if is_keyword w then ⟨some DRACULA_PURPLE, true, false⟩
  else if is_type w then ⟨some DRACULA_CYAN, false, false⟩
  else if rustParsesF64 w then ⟨some DRACULA_ORANGE, false, false⟩
  else ⟨some DRACULA_FG, false, false⟩

/-! ## Byte slicing

The comment branch evaluates `&line[i..]` where `i` is the scanner's
*character* index but Rust string indexing counts *bytes*.  `byteDrop cs n`
models taking the suffix of the UTF-8 encoding of `cs` from byte offset `n`
and viewing it as a string again: `some` of the remaining characters when
`n` lands on a character boundary, `none` (a Rust panic) when `n` falls
inside a multi-byte character or past the end. -/

def byteDrop : List Char → Nat → Option (List Char)
  | cs, 0 => some cs
  | [], _ + 1 => none
  | c :: cs, n + 1 =>
    if c.utf8Size ≤ n + 1 then byteDrop cs (n + 1 - c.utf8Size) else none

/-! ## The scanner (`highlight_line`) -/

/-- The comment test of the scanner at a position holding `c` with `rest`
after it: `(c == '/' && chars[i+1] == '/') || c == '#' ||
(c == '/' && chars[i+1] == '*')`. -/
def commentStart (c : Char) (rest : List Char) : Bool :=
  (c == '/' && rest.head? == some '/') || c == '#' ||
  (c == '/' && rest.head? == some '*')

/-- Result of running the scan: a span list, a panic (from the byte slice in
the comment branch), or fuel exhaustion — the last is an artifact of the
fuel-indexed recursion and is proved unreachable in `hlScanF_no_fuel` below. -/
inductive HlRes where
  | outOfFuel : HlRes
  | panicked : HlRes
  | spans : List Span → HlRes
deriving DecidableEq

/-- Prepend a span to a successful scan result. -/
def consSpan (s : Span) : HlRes → HlRes
  | .spans ss => .spans (s :: ss)
  | r => r

/-- The `while i < chars.len()` loop of `highlight_line`.  `line` is the full
character list of the line, `i` the current index, `cur = line.drop i` the
characters not yet consumed; the fuel argument makes the recursion
structural. In loop order: comment test (emitting `&line[i..]`, modelled by
`byteDrop line i`), whitespace, word consumption (greedy over `wordChar`)
with `wordStyle` classification, and single punctuation characters. -/
def hlScanF (line : List Char) : Nat → Nat → List Char → HlRes
  | 0, _, _ => .outOfFuel
  | _ + 1, _, [] => .spans []
  | fuel + 1, i, c :: rest =>
    if commentStart c rest then
      match byteDrop line i with
      | none => .panicked
      | some suf => .spans [⟨String.mk suf, commentStyle⟩]
    else if rustIsWhitespace c then
      consSpan (Span.raw c.toString) (hlScanF line fuel (i + 1) rest)
    else if rustIsAlphabetic c || c == '_' || c.isDigit then
      consSpan
        ⟨String.mk (c :: rest.takeWhile wordChar),
          wordStyle (String.mk (c :: rest.takeWhile wordChar))⟩
        (hlScanF line fuel (i + (c :: rest.takeWhile wordChar).length)
          (rest.dropWhile wordChar))
    else
      consSpan ⟨c.toString, fgStyle⟩ (hlScanF line fuel (i + 1) rest)

/-- Modelled from the spec: the fallback `Line::from(line)` conversion lives
in the `ratatui` dependency, not in this repository; the spec's edge case
("an empty line yields an empty span sequence") fixes its value on the empty
string, and on nonempty text it is a single unstyled span of the whole
string.  The fallback is only reached when the scan emitted no spans, which
happens exactly on the empty line. -/
def lineFromStr (s : String) : List Span :=
  if s = "" then [] else [Span.raw s]

/-- `fn highlight_line`: run the scan over the line's characters; if it
produced no spans return `Line::from(line)`, else the spans. -/
def highlight_line (line : String) : HlRes :=
  match hlScanF line.data (line.data.length + 1) 0 line.data with
  | .spans ss => if ss.isEmpty then .spans (lineFromStr line) else .spans ss
  | r => r

/-! ## Viewport controller (`run_app`) -/

/-- Initial scroll: `start_line.unwrap_or(1).saturating_sub(1)`. -/
def initScroll (startLine : Option Nat) : Nat := startLine.getD 1 - 1

/-- Render step: `size.height.saturating_sub(2)`. -/
def availableHeight (termH : Nat) : Nat := termH - 2

/-- Render step: `fixed_height.unwrap_or(available_height).min(available_height)`. -/
def visibleLines (fixedHeight : Option Nat) (avail : Nat) : Nat :=
  min (fixedHeight.getD avail) avail

/-- Per-frame scroll clamp: `if total_lines <= visible_lines { scroll = 0 }
else { scroll = scroll.min(total_lines - visible_lines) }`. -/
def clampScroll (totalLines visible scroll : Nat) : Nat :=
  if totalLines ≤ visible then 0 else min scroll (totalLines - visible)

/-- The status line the render step formats. -/
def statusText (scroll visible totalLines : Nat) : String :=
  "Line " ++ toString (scroll + 1) ++ "-" ++
  toString (min (scroll + visible) totalLines) ++ " of " ++
  toString totalLines ++
  " | ↑↓/j k: line | PgUp/PgDn: page | g/G: top/bottom | q: quit"

/-- The key codes the input step distinguishes (`q` also stands for Escape,
`j` for Down, `k` for Up). -/
inductive Key where
  | q | j | k | pageDown | pageUp | g | G | other
deriving DecidableEq

/-- Outcome of one input step: leave the loop or continue with a new scroll. -/
inductive StepResult where
  | quit : StepResult
  | cont : Nat → StepResult
deriving DecidableEq

/-- The page size recomputed inside the PageDown/PageUp/`G` handlers:
`fixed_height.unwrap_or(terminal.size()?.height as usize - 2)`.  Unlike the
render step this subtraction is unchecked, and `unwrap_or` evaluates its
argument eagerly; `none` models the underflow when the reported terminal
height is below 2 (a panic under debug assertions). -/
def pageVisible (fixedHeight : Option Nat) (termH : Nat) : Option Nat :=
  if 2 ≤ termH then some (fixedHeight.getD (termH - 2)) else none

/-- One step of the key `match` in `run_app` from a given scroll, with
`none` propagating the underflow of `pageVisible`. -/
def inputStep (totalLines : Nat) (fixedHeight : Option Nat) (termH : Nat)
    (scroll : Nat) : Key → Option StepResult
  | .q => some .quit
  | .j => some (.cont (if scroll < totalLines - 1 then scroll + 1 else scroll))
  | .k => some (.cont (scroll - 1))
  | .pageDown =>
    (pageVisible fixedHeight termH).map fun v =>
      .cont (min (scroll + v) (totalLines - 1))
  | .pageUp => (pageVisible fixedHeight termH).map fun v => .cont (scroll - v)
  | .g => some (.cont 0)
  | .G => (pageVisible fixedHeight termH).map fun v => .cont (totalLines - v)
  | .other => some (.cont scroll)

/-- Model of the `clap` attribute on `Args::lines`:
`#[arg(short, long, default_value = "70")] lines: Option<usize>`.  Because
`default_value` is set, `clap` substitutes `"70"` when the flag is absent,
so the parsed field is `Some` in every case. -/
def linesFlag (given : Option Nat) : Option Nat := some (given.getD 70)

/-! ## Supporting lemmas -/

theorem consSpan_eq_outOfFuel (s : Span) (r : HlRes) :
    consSpan s r = .outOfFuel ↔ r = .outOfFuel := by
  cases r <;> simp [consSpan]

theorem dropWhile_length_le (p : Char → Bool) (l : List Char) :
    (l.dropWhile p).length ≤ l.length := by
  conv_rhs => rw [← List.takeWhile_append_dropWhile (p := p) (l := l)]
  rw [List.length_append]
  omega

theorem drop_takeWhile_length (p : Char → Bool) (l : List Char) :
    l.drop (l.takeWhile p).length = l.dropWhile p := by
  induction l with
  | nil => rfl
  | cons a l ih =>
    by_cases h : p a = true
    · simp [List.takeWhile_cons, List.dropWhile_cons, h, ih]
    · simp [List.takeWhile_cons, List.dropWhile_cons, h]

/-- The fuel budget `highlight_line` supplies is never exhausted: each loop
iteration consumes at least one character. -/
theorem hlScanF_no_fuel (line : List Char) :
    ∀ fuel i cur, cur.length < fuel → hlScanF line fuel i cur ≠ .outOfFuel := by
  intro fuel
  induction fuel with
  | zero => intro i cur h; omega
  | succ fuel ih =>
    intro i cur h
    cases cur with
    | nil => simp [hlScanF]
    | cons c rest =>
      simp only [List.length_cons] at h
      simp only [hlScanF]
      split
      · split <;> simp
      · split
        · rw [ne_eq, consSpan_eq_outOfFuel]
          exact ih (i + 1) rest (by omega)
        · split
          · rw [ne_eq, consSpan_eq_outOfFuel]
            refine ih _ (rest.dropWhile wordChar) ?_
            have := dropWhile_length_le wordChar rest
            omega
          · rw [ne_eq, consSpan_eq_outOfFuel]
            exact ih (i + 1) rest (by omega)

theorem highlight_line_no_fuel (s : String) : highlight_line s ≠ .outOfFuel := by
  have h := hlScanF_no_fuel s.data (s.data.length + 1) 0 s.data (by omega)
  unfold highlight_line
  cases hres : hlScanF s.data (s.data.length + 1) 0 s.data with
  | outOfFuel => exact absurd hres h
  | panicked => simp
  | spans ss =>
    show (if ss.isEmpty then HlRes.spans (lineFromStr s) else HlRes.spans ss) ≠
      HlRes.outOfFuel
    split <;> simp

/-- Dropping `n` bytes from a sequence of one-byte characters is dropping
`n` characters (no panic): the byte slice is well behaved on ASCII. -/
theorem byteDrop_ascii :
    ∀ (cs : List Char) (n : Nat), n ≤ cs.length → (∀ c ∈ cs, c.utf8Size = 1) →
    byteDrop cs n = some (cs.drop n) := by
  intro cs
  induction cs with
  | nil =>
    intro n hn _
    have h0 : n = 0 := by simpa using hn
    subst h0
    rfl
  | cons c cs ih =>
    intro n hn hsz
    cases n with
    | zero => rfl
    | succ n =>
      have hc : c.utf8Size = 1 := hsz c (by simp)
      simp only [byteDrop, hc]
      rw [if_pos (by omega)]
      have : n + 1 - 1 = n := by omega
      rw [this, List.drop_succ_cons]
      exact ih n (by simpa using hn) fun d hd => hsz d (by simp [hd])

theorem string_mk_cons (c : Char) (cs : List Char) :
    c.toString ++ String.mk cs = String.mk (c :: cs) := rfl

theorem string_mk_append (a b : List Char) :
    String.mk a ++ String.mk b = String.mk (a ++ b) := rfl

theorem string_append_empty (s : String) : s ++ "" = s := by
  cases s with
  | mk data =>
    show String.mk (data ++ []) = String.mk data
    rw [List.append_nil]

/-- On lines made of one-byte characters only, the scan succeeds and its
spans' texts concatenate back to the consumed suffix: the span-coverage
property does hold whenever the byte/character index confusion in the
comment branch cannot bite. -/
theorem hlScanF_ascii_coverage (line : List Char)
    (hsz : ∀ c ∈ line, c.utf8Size = 1) :
    ∀ fuel i cur, line.drop i = cur → cur.length < fuel →
    ∃ ss, hlScanF line fuel i cur = .spans ss ∧ spansText ss = String.mk cur := by
  intro fuel
  induction fuel with
  | zero => intro i cur _ h; omega
  | succ fuel ih =>
    intro i cur hdrop hlen
    cases cur with
    | nil => exact ⟨[], rfl, rfl⟩
    | cons c rest =>
      have hi : i < line.length := by
        rcases Nat.lt_or_ge i line.length with h | h
        · exact h
        · rw [List.drop_eq_nil_of_le h] at hdrop; cases hdrop
      have hdrop1 : line.drop (i + 1) = rest := by
        rw [← List.drop_drop, hdrop, List.drop_one, List.tail_cons]
      simp only [List.length_cons] at hlen
      by_cases hc : commentStart c rest = true
      · have hbd : byteDrop line i = some (line.drop i) :=
          byteDrop_ascii line i (Nat.le_of_lt hi) hsz
        rw [hdrop] at hbd
        refine ⟨[⟨String.mk (c :: rest), commentStyle⟩], ?_, ?_⟩
        · simp [hlScanF, hc, hbd]
        · simp [spansText, string_append_empty]
      · by_cases hw : rustIsWhitespace c = true
        · obtain ⟨ss, hss, htxt⟩ := ih (i + 1) rest hdrop1 (by omega)
          refine ⟨Span.raw c.toString :: ss, ?_, ?_⟩
          · simp [hlScanF, hc, hw, hss, consSpan]
          · simp [spansText, Span.raw, htxt, string_mk_cons]
        · by_cases hwd : (rustIsAlphabetic c || c == '_' || c.isDigit) = true
          · have hdropw :
                line.drop (i + ((rest.takeWhile wordChar).length + 1)) =
                  rest.dropWhile wordChar := by
              rw [← List.drop_drop, hdrop, List.drop_succ_cons, drop_takeWhile_length]
            have hlend : (rest.dropWhile wordChar).length < fuel := by
              have := dropWhile_length_le wordChar rest
              omega
            obtain ⟨ss, hss, htxt⟩ :=
              ih (i + ((rest.takeWhile wordChar).length + 1)) (rest.dropWhile wordChar)
                hdropw hlend
            refine ⟨⟨String.mk (c :: rest.takeWhile wordChar),
              wordStyle (String.mk (c :: rest.takeWhile wordChar))⟩ :: ss, ?_, ?_⟩
            · simp [hlScanF, hc, hw, hwd, hss, consSpan]
            · simp only [spansText, htxt, string_mk_append]
              congr 1
              simp [List.cons_append, List.takeWhile_append_dropWhile]
          · obtain ⟨ss, hss, htxt⟩ := ih (i + 1) rest hdrop1 (by omega)
            refine ⟨⟨c.toString, fgStyle⟩ :: ss, ?_, ?_⟩
            · simp [hlScanF, hc, hw, hwd, hss, consSpan]
            · simp [spansText, htxt, string_mk_cons]

/-- Corollary at the top level: for every line of one-byte characters,
`highlight_line` returns spans whose texts concatenate to the line. -/
theorem highlight_ascii_coverage (s : String)
    (hsz : ∀ c ∈ s.data, c.utf8Size = 1) :
    ∃ ss, highlight_line s = .spans ss ∧ spansText ss = s := by
  obtain ⟨ss, hss, htxt⟩ :=
    hlScanF_ascii_coverage s.data hsz (s.data.length + 1) 0 s.data rfl (by omega)
  unfold highlight_line
  rw [hss]
  cases ss with
  | nil =>
    have hs : s = "" := (htxt.symm : s = "")
    subst hs
    exact ⟨[], rfl, rfl⟩
  | cons a tl =>
    exact ⟨a :: tl, by simp, htxt⟩

/-- No keyword is also a type name or parses as an `f64`: the source's three
sequential `if`s therefore never both fire on a keyword. -/
theorem keyword_excl (w : String) (h : is_keyword w = true) :
    is_type w = false ∧ rustParsesF64 w = false := by
  simp only [is_keyword, Bool.or_eq_true, beq_iff_eq] at h
  simp only [or_assoc] at h
  rcases h with rfl | rfl | rfl | rfl | rfl | rfl | rfl | rfl | rfl | rfl | rfl | rfl |
    rfl | rfl | rfl | rfl | rfl | rfl | rfl | rfl | rfl | rfl | rfl | rfl | rfl <;> decide

/-- No type name parses as an `f64`. -/
theorem type_excl (w : String) (h : is_type w = true) : rustParsesF64 w = false := by
  simp only [is_type, Bool.or_eq_true, beq_iff_eq] at h
  simp only [or_assoc] at h
  rcases h with rfl | rfl | rfl | rfl | rfl | rfl | rfl | rfl | rfl | rfl | rfl | rfl |
    rfl <;> decide

/-- The source's sequential restyling agrees extensionally with the spec's
keyword → type → number → default precedence chain, because the three
predicates are pairwise disjoint. -/
theorem wordStyle_eq_specWordStyle (w : String) : wordStyle w = specWordStyle w := by
  unfold wordStyle specWordStyle
  cases hk : is_keyword w with
  | true =>
    obtain ⟨ht, hp⟩ := keyword_excl w hk
    simp [ht, hp, styleFg, styleBold, styleDefault]
  | false =>
    cases ht : is_type w with
    | true =>
      have hp := type_excl w ht
      simp [hp, styleFg, styleDefault]
    | false =>
      cases hp : rustParsesF64 w <;> simp [styleFg, styleDefault]

/-! ## The claims -/

/-- C1: the claim says concatenating the spans of `highlight_line L` in order
reproduces `L` for all lines, including ones with multi-byte characters.  It
fails: the comment branch slices the line at the *character* index `i` used
as a *byte* offset, so on `"éé#"` the word span `"éé"` is followed by the
comment span `"é#"` (byte offset 2 lands after the first two-byte `é`), and
the concatenation `"ééé#"` duplicates a character.  For one-byte lines the
property holds (`highlight_ascii_coverage` above). -/
theorem C1_span_coverage_fails_on_multibyte :
    highlight_line "éé#" = .spans [⟨"éé", fgStyle⟩, ⟨"é#", commentStyle⟩] ∧
    spansText [⟨"éé", fgStyle⟩, ⟨"é#", commentStyle⟩] = "ééé#" ∧
    ("ééé#" : String) ≠ "éé#" := by
  refine ⟨by decide, by decide, by decide⟩

/-- C2: the claim says `highlight_line` is total and never panics on any
line, including multi-byte ones.  It fails: on `"é#"` the comment branch
evaluates `&line[1..]`, and byte offset 1 falls inside the two-byte `é`, a
slicing panic (the `.panicked` result). -/
theorem C2_totality_fails_on_multibyte : highlight_line "é#" = .panicked := by
  decide

/-- C3: after the per-frame clamp, `0 ≤ scroll ≤ max 0 (total - visible)`;
when the whole file fits (`total ≤ visible`) the clamp forces scroll to 0;
and the clamp is idempotent — for all inputs. -/
theorem C3_clamp_invariant_and_idempotent (totalLines visible scroll : Nat) :
    clampScroll totalLines visible scroll ≤ max 0 (totalLines - visible) ∧
    (totalLines ≤ visible → clampScroll totalLines visible scroll = 0) ∧
    clampScroll totalLines visible (clampScroll totalLines visible scroll) =
      clampScroll totalLines visible scroll := by
  unfold clampScroll
  by_cases h : totalLines ≤ visible
  · simp [h]
  · simp only [if_neg h]
    refine ⟨?_, fun h2 => absurd h2 h, ?_⟩ <;> omega

theorem C3_witness : clampScroll 3 5 7 = 0 :=
  (C3_clamp_invariant_and_idempotent 3 5 7).2.1 (by omega)

/-- C4: for a document with at least one line, with the page size the
handlers compute available as `visible`, the key transitions stay in
bounds: `j` cannot move past `total - 1` from any in-bounds scroll, `k`
cannot go below 0 (it computes the saturating `scroll - 1`), `g` jumps to
0, `G` jumps to the saturating `total - visible` (max with 0), and `g`/`G`
are idempotent. -/
theorem C4_key_transition_bounds (totalLines termH scroll visible : Nat)
    (fh : Option Nat) (_htot : 1 ≤ totalLines)
    (hvis : pageVisible fh termH = some visible) :
    (scroll ≤ totalLines - 1 →
      ∃ s, inputStep totalLines fh termH scroll Key.j = some (.cont s) ∧
        s ≤ totalLines - 1) ∧
    (∃ s, inputStep totalLines fh termH scroll Key.k = some (.cont s) ∧
      s = scroll - 1 ∧ s ≤ scroll) ∧
    inputStep totalLines fh termH scroll Key.g = some (.cont 0) ∧
    inputStep totalLines fh termH scroll Key.G =
      some (.cont (totalLines - visible)) ∧
    inputStep totalLines fh termH 0 Key.g = some (.cont 0) ∧
    inputStep totalLines fh termH (totalLines - visible) Key.G =
      some (.cont (totalLines - visible)) := by
  refine ⟨fun hs => ⟨_, rfl, ?_⟩, ⟨_, rfl, rfl, by omega⟩, rfl, ?_, rfl, ?_⟩
  · split <;> omega
  · simp [inputStep, hvis]
  · simp [inputStep, hvis]

theorem C4_witness : inputStep 5 (some 2) 9 3 Key.G = some (.cont 3) :=
  (C4_key_transition_bounds 5 9 3 2 (some 2) (by omega) (by decide)).2.2.2.1

/-- C5: the claim says any line containing `//`, `#` or `/*` ends in a
single comment-styled span from the first such occurrence, for any line.
The ASCII example behaves exactly as claimed, but the property fails as
stated: on `"©#"` (which contains `#`) the comment branch panics slicing
at byte offset 1 inside the two-byte `©`, so no comment span is emitted at
all. -/
theorem C5_comment_precedence :
    ("©#" : String).data.contains '#' = true ∧
    highlight_line "©#" = .panicked ∧
    highlight_line "let x = 5 // true" = .spans
      [⟨"let", ⟨some DRACULA_PURPLE, true, false⟩⟩, Span.raw " ",
       ⟨"x", fgStyle⟩, Span.raw " ", ⟨"=", fgStyle⟩, Span.raw " ",
       ⟨"5", ⟨some DRACULA_ORANGE, false, false⟩⟩, Span.raw " ",
       ⟨"// true", commentStyle⟩] := by
  refine ⟨by decide, by decide, by decide⟩

/-- C6: every consumed word is styled by the keyword → type → number →
default precedence chain (the source's sequential restyling is extensionally
that chain), and `highlight_line "fn main"` styles `fn` as a keyword (bold,
keyword color) and `main` with the default foreground. -/
theorem C6_word_classification :
    (∀ w : String, wordStyle w = specWordStyle w) ∧
    highlight_line "fn main" = .spans
      [⟨"fn", ⟨some DRACULA_PURPLE, true, false⟩⟩, Span.raw " ",
       ⟨"main", fgStyle⟩] :=
  ⟨wordStyle_eq_specWordStyle, by decide⟩

theorem C6_witness : wordStyle "fn" = specWordStyle "fn" :=
  C6_word_classification.1 "fn"

/-- C7: for a 100-line document with `fixed_height = 10` and
`start_line = 50` (on a terminal tall enough for 10 content rows), the
initial scroll is 49 and survives the clamp, the status line reads
`"Line 50-59 of 100 | ..."`; pressing `G` moves scroll to 90 (stable under
the clamp) with status `"Line 91-100 of 100 | ..."`; pressing `g` returns
scroll to 0. -/
theorem C7_end_to_end_scenario (termH : Nat) (hterm : 12 ≤ termH) :
    initScroll (some 50) = 49 ∧
    visibleLines (some 10) (availableHeight termH) = 10 ∧
    clampScroll 100 (visibleLines (some 10) (availableHeight termH)) 49 = 49 ∧
    statusText 49 (visibleLines (some 10) (availableHeight termH)) 100 =
      "Line 50-59 of 100 | ↑↓/j k: line | PgUp/PgDn: page | g/G: top/bottom | q: quit" ∧
    inputStep 100 (some 10) termH 49 Key.G = some (.cont 90) ∧
    clampScroll 100 (visibleLines (some 10) (availableHeight termH)) 90 = 90 ∧
    statusText 90 (visibleLines (some 10) (availableHeight termH)) 100 =
      "Line 91-100 of 100 | ↑↓/j k: line | PgUp/PgDn: page | g/G: top/bottom | q: quit" ∧
    inputStep 100 (some 10) termH 90 Key.g = some (.cont 0) := by
  have hv : visibleLines (some 10) (availableHeight termH) = 10 := by
    simp only [visibleLines, availableHeight, Option.getD]
    omega
  have h2 : 2 ≤ termH := by omega
  have hpv : pageVisible (some 10) termH = some 10 := by
    simp [pageVisible, h2]
  rw [hv]
  refine ⟨by decide, by decide, by decide, by decide, ?_, by decide, by decide, rfl⟩
  simp [inputStep, hpv]

theorem C7_witness : initScroll (some 50) = 49 :=
  (C7_end_to_end_scenario 12 (by omega)).1

/-- C8: on the empty line the scan consumes nothing, the span list is empty,
and the `Line::from(line)` fallback (modelled from the spec, see
`lineFromStr`) yields the empty span sequence. -/
theorem C8_empty_line : highlight_line "" = .spans [] := by decide

/-- C9 counterexample: the claim says an absent lines flag (`-l`) leaves
`fixed_height` unset so the viewport uses the available terminal height.
In fact the `clap` attribute carries `default_value = "70"`, so an absent
flag parses to `Some 70`, and with available height 100 the viewport shows
70 lines, not 100. -/
theorem C9_counterexample :
    linesFlag none = some 70 ∧ linesFlag none ≠ none ∧
    visibleLines (linesFlag none) 100 = 70 ∧ (70 : Nat) ≠ 100 := by
  refine ⟨rfl, by decide, rfl, by omega⟩

/-- C9 amended: when the lines flag (`-l`) is absent, `fixed_height` defaults to
`Some 70` (per the source's `default_value = "70"`, documented in its own
doc comment "default: 70"), so the viewport height is `min 70 available`. -/
theorem C9_lines_flag_defaults_to_70 :
    linesFlag none = some 70 ∧
    ∀ avail : Nat, visibleLines (linesFlag none) avail = min 70 avail :=
  ⟨rfl, fun _ => rfl⟩

/-- C10: the PageDown/PageUp/`G` handlers recompute the page size with the
unchecked `terminal.size()?.height as usize - 2` (reached whenever
`fixed_height` is absent), which underflows exactly when the reported
height is below 2 — unlike the render step's saturating `availableHeight`,
which is total and yields 0 there.  Under the precondition `2 ≤ height`
the page size equals the render step's available height and every key
handler is total. -/
theorem C10_page_handlers_unchecked_subtraction (termH : Nat) :
    ((pageVisible none termH).isSome ↔ 2 ≤ termH) ∧
    (2 ≤ termH → pageVisible none termH = some (availableHeight termH)) ∧
    (termH < 2 → pageVisible none termH = none ∧ availableHeight termH = 0) ∧
    (2 ≤ termH → ∀ totalLines scroll : Nat, ∀ key : Key,
      (inputStep totalLines none termH scroll key).isSome) := by
  refine ⟨?_, fun h => ?_, fun h => ⟨?_, ?_⟩, fun h total scroll key => ?_⟩
  · by_cases h : 2 ≤ termH <;> simp [pageVisible, h]
  · simp [pageVisible, h, availableHeight]
  · simp [pageVisible]
    omega
  · unfold availableHeight
    omega
  · cases key <;> simp [inputStep, pageVisible, h]

theorem C10_witness : pageVisible none 24 = some (availableHeight 24) :=
  (C10_page_handlers_unchecked_subtraction 24).2.1 (by omega)

end Peek
